import Mathlib

/-
Verification of the LeoForge refinement loop.

This file gives a shallow embedding of the orchestration control loop of
LeoForge (`src/workflow/orchestrator.py`, `ProjectOrchestrator.generate_project`)
together with the workspace / builder services it calls
(`src/services/builder.py`, `WorkspaceManager` and `LeoBuilder`), and proves
the stated invariants of the loop.

External collaborators (the architect, generator, evaluator LLM agents, the
`leo` subprocess and the filesystem) are modelled as an environment whose
behaviour at each round is arbitrary; the loop logic itself is translated
statement by statement from the Python source.  Timing values (`time.time()`
differences) are supplied by the environment as rationals, scores are
rationals, and the logging / rich-console calls, which have no effect on
control flow or on the returned result, are omitted.
-/

/-! ## String formatting helpers (WorkspaceManager.save_code) -/

/-- One pass of Python `str.replace("\\n", "\n")` (literal backslash-n to a
newline), scanning left to right, non-overlapping, over the character list. -/
def replaceEscNl : List Char → List Char
  | '\\' :: 'n' :: rest => '\n' :: replaceEscNl rest
  | c :: rest => c :: replaceEscNl rest
  | [] => []

/-- One pass of Python `str.replace("\n\n\n", "\n\n")`, scanning left to
right, non-overlapping. -/
def collapseOnce : List Char → List Char
  | '\n' :: '\n' :: '\n' :: rest => '\n' :: '\n' :: collapseOnce rest
  | c :: rest => c :: collapseOnce rest
  | [] => []

/-- Whether `"\n\n\n"` occurs in the character list (Python `'\n\n\n' in s`). -/
def hasTriple : List Char → Bool
  | '\n' :: '\n' :: '\n' :: _ => true
  | _ :: rest => hasTriple rest
  | [] => false

/-- The `while '\n\n\n' in formatted:` loop of `save_code`, with explicit
fuel; each iteration strictly shortens the string, so fuel equal to the
length of the input always suffices. -/
def collapseLoop : Nat → List Char → List Char
  | 0, s => s
  | n + 1, s => if hasTriple s then collapseLoop n (collapseOnce s) else s

/-- One pass of Python `str.replace("}{", "}\n{")`, scanning left to right,
non-overlapping. -/
def replaceBrace : List Char → List Char
  | '\x7d' :: '\x7b' :: rest => '\x7d' :: '\n' :: '\x7b' :: replaceBrace rest
  | c :: rest => c :: replaceBrace rest
  | [] => []

/-- Python `str.strip` whitespace set: exactly the characters for which
CPython's `str.isspace` is true — the ASCII whitespace `\t \n \v \f \r`
and space, the separators U+001C-U+001F, next line U+0085, no-break space
U+00A0, Ogham space mark U+1680, the typographic spaces U+2000-U+200A,
line / paragraph separators U+2028 / U+2029, narrow no-break space
U+202F, medium mathematical space U+205F, and ideographic space
U+3000. -/
def pyIsSpace (c : Char) : Bool :=
  (9 ≤ c.toNat && c.toNat ≤ 13) ||
  (28 ≤ c.toNat && c.toNat ≤ 31) ||
  c.toNat = 32 || c.toNat = 133 || c.toNat = 160 || c.toNat = 0x1680 ||
  (0x2000 ≤ c.toNat && c.toNat ≤ 0x200a) ||
  c.toNat = 0x2028 || c.toNat = 0x2029 || c.toNat = 0x202f ||
  c.toNat = 0x205f || c.toNat = 0x3000

/-- Remove leading whitespace (Python `str.lstrip`). -/
def pyLstrip : List Char → List Char
  | c :: rest => if pyIsSpace c then pyLstrip rest else c :: rest
  | [] => []

/-- Python `str.strip`: drop leading and trailing whitespace. -/
def pyStrip (s : List Char) : List Char :=
  (pyLstrip ((pyLstrip s).reverse)).reverse

/-- The formatting pipeline of `WorkspaceManager.save_code` (builder.py,
lines 53-62): normalise literal `\n` escapes, collapse runs of three or more
newlines to two, put a newline between adjacent closing/opening braces, and
strip surrounding whitespace.  The result is the exact content written to
`<workspace>/src/main.leo`. -/
def save_code_content (code : String) : String :=
  let escaped := replaceEscNl code.data
  let collapsed := collapseLoop escaped.length escaped
  let braced := replaceBrace collapsed
  ⟨pyStrip braced⟩

/-! ## Data model

Modelled from the spec: the repository imports these classes from
`src.models`, whose file is not part of the source snapshot (only its tests
and callers are); field names and defaults follow the spec's §3 data model,
the constructor calls in `orchestrator.py` / `builder.py`, and
`tests/test_models.py`. -/

/-- Modelled from the spec: compilation status enum of `src.models`
(`CompilationStatus`), whose members `SUCCESS`, `ERROR`, `TIMEOUT`,
`UNKNOWN` appear in `builder.py`; the spec §3 names these
success / compile-error / timeout / toolchain-missing. -/
inductive CompilationStatus
  | success
  | error
  | timeout
  | unknown
deriving DecidableEq, Repr

/-- Modelled from the spec: `src.models.BuildResult` (the spec's
`BuildOutcome`), as constructed in `builder.py`. -/
structure BuildResult where
  status : CompilationStatus
  stdout : String := ""
  stderr : String := ""
  warnings : List String := []
  errors : List String := []
  success : Bool
  build_time : ℚ
  output_files : List String := []
deriving DecidableEq, Repr

/-- Modelled from the spec: `src.models.EvaluationResult`, fields as in
`tests/test_models.py` and the spec's §3. -/
structure EvaluationResult where
  is_complete : Bool
  has_errors : Bool
  missing_features : List String := []
  improvements : List String := []
  security_issues : List String := []
  optimization_suggestions : List String := []
  score : ℚ
  needs_iteration : Bool := true
deriving DecidableEq, Repr

/-- Modelled from the spec: `src.models.GeneratedCode` (the spec's
`SourceText`), fields as in `tests/test_models.py`. -/
structure GeneratedCode where
  code : String
  language : String := "leo"
  file_path : String := "src/main.leo"
  imports : List String := []
  exports : List String := []
  warnings : List String := []
deriving DecidableEq, Repr

/-- Modelled from the spec: `src.models.ArchitectureDesign` (the spec's
`Design`), restricted to the fields the orchestrator reads. -/
structure ArchitectureDesign where
  project_name : String
  description : String := ""
  features : List String := []
deriving DecidableEq, Repr

/-- Modelled from the spec: `src.models.CodeRequirements`, as constructed in
`orchestrator.py` lines 86-91. -/
structure CodeRequirements where
  project_name : String
  description : String
  features : List String
  architecture : ArchitectureDesign
deriving DecidableEq, Repr

/-- Modelled from the spec: `src.models.IterationResult` (the spec's
`Iteration`), as constructed in `orchestrator.py` lines 224-231; `success`
is the derived flag (`BuildOutcome.success` if a build is present, else
false — in the Python source the expression `build_result and
build_result.success` yields a falsy `None` when no build is present). -/
structure IterationResult where
  iteration_number : Nat
  code : GeneratedCode
  evaluation : EvaluationResult
  build : Option BuildResult
  success : Bool
  duration : ℚ
deriving DecidableEq, Repr

/-- Modelled from the spec: `src.models.ProjectResult` (the spec's
`RunResult`), with the defaults implied by the three constructor calls in
`orchestrator.py` (fields not passed default to empty / zero / none, cf.
Scenario C's `total_iterations=0`). -/
structure ProjectResult where
  success : Bool
  project_name : String
  final_code : Option String := none
  iterations : List IterationResult := []
  total_iterations : Nat := 0
  total_duration : ℚ := 0
  error_message : Option String := none
  workspace_path : Option String := none
deriving DecidableEq, Repr

/-! ## Builder service (src/services/builder.py) -/

/-- Outcome of the `subprocess.run(["leo", "new", project_name], ...)` call
inside `WorkspaceManager.create_workspace`, together with the pre-existing
workspace check. -/
inductive WsExec
  | already (path : String)
  | created (path : String)
  | procError (stderr : String)
  | cliMissing
deriving DecidableEq, Repr

/-- `WorkspaceManager.create_workspace` (builder.py lines 24-47): returns
`(True, resolved workspace path)` when the directory already exists or
`leo new` succeeds, `(False, error message)` when the subprocess fails or
the `leo` CLI is absent. -/
def create_workspace : WsExec → Bool × String
  | .already path => (true, path)
  | .created path => (true, path)
  | .procError stderr => (false, "Failed to create workspace: " ++ stderr)
  | .cliMissing => (false, "Leo CLI not found. Please install Leo first.")

/-- Whether `pat` occurs as a contiguous substring of the character list
(Python `pat in s`). -/
def listContains (pat : List Char) : List Char → Bool
  | [] => pat.isEmpty
  | c :: rest => pat.isPrefixOf (c :: rest) || listContains pat rest

/-- Python `"error" in line.lower()` as used by `build_project`'s stderr
parsing. -/
def lineMentions (word : String) (line : String) : Bool :=
  listContains word.data line.toLower.data

/-- Outcome of the `subprocess.run(["leo", "build"], ...)` call inside
`LeoBuilder.build_project`: the process completed with a return code and
captured output, timed out, the `leo` CLI was absent, or some other
exception escaped the call. -/
inductive BuildExec
  | completed (returncode : Int) (stdout : String) (stderr : String)
  | timedOut
  | cliMissing
  | otherError (msg : String)
deriving DecidableEq, Repr

/-- `LeoBuilder.build_project` (builder.py lines 101-179).  `elapsed` stands
for the wall-clock `time.time() - start_time` at the point the result is
built, and `buildFiles` for the files found under `build/` on success.
Every branch returns a `BuildResult`; no exception escapes. -/
def build_project (timeout : Nat) (exec : BuildExec) (elapsed : ℚ)
    (buildFiles : List String) : BuildResult :=
  match exec with
  | .completed returncode stdout stderr =>
    let ls := if stderr = "" then [] else stderr.splitOn "\n"
    let errors := ls.filter (fun l => lineMentions "error" l)
    let warnings := ls.filter
      (fun l => !lineMentions "error" l && lineMentions "warning" l)
    if returncode = 0 then
      { status := .success, stdout := stdout, stderr := stderr,
        warnings := warnings, errors := errors, success := true,
        build_time := elapsed, output_files := buildFiles }
    else
      { status := .error, stdout := stdout, stderr := stderr,
        warnings := warnings, errors := errors, success := false,
        build_time := elapsed }
  | .timedOut =>
    { status := .timeout,
      errors := ["Build timeout after " ++ toString timeout ++ " seconds"],
      success := false, build_time := (timeout : ℚ) }
  | .cliMissing =>
    { status := .unknown,
      errors := ["Leo CLI not found. Please install Leo first."],
      success := false, build_time := elapsed }
  | .otherError msg =>
    { status := .unknown, errors := ["Unexpected error: " ++ msg],
      success := false, build_time := elapsed }

/-! ## Orchestrator (src/workflow/orchestrator.py) -/

/-- One repair invocation `generator.fix_compilation_errors(final_code,
iterations[-1].build, requirements)` as observed by the loop: the round in
which it happened and the previous build passed to it. -/
structure FixCall where
  round : Nat
  prevBuild : Option BuildResult
deriving DecidableEq, Repr

/-- The mutable local state of the generation loop: the `iterations` list
and `final_code` variable of `generate_project`, the workspace file content
written by `save_code`, and instrumentation recording which repair and
build calls were made. -/
structure LoopState where
  iterations : List IterationResult
  finalCode : Option String
  wsContent : Option String
  fixCalls : List FixCall
  buildCalls : List Nat
deriving DecidableEq, Repr

/-- How the generation loop ended: normally (loop exhausted or `break`), or
by an exception escaping a collaborator call, carrying the message and the
loop state at the moment it was raised. -/
inductive LoopOutcome
  | finished (s : LoopState)
  | errored (msg : String) (s : LoopState)
deriving DecidableEq, Repr

/-- The loop state carried by an outcome. -/
def LoopOutcome.state : LoopOutcome → LoopState
  | .finished s => s
  | .errored _ s => s

/-- The exception message, if the loop ended on one. -/
def LoopOutcome.errorMsg : LoopOutcome → Option String
  | .finished _ => none
  | .errored m _ => some m

/-- The behaviour of the external collaborators during one run: what the
architect, generator, evaluator and builder return (or raise, for the
awaited LLM calls) at each round, and the wall-clock durations.  `fix` is
indexed by the round number and receives the arguments the loop passes to
`generator.fix_compilation_errors`. -/
structure Env where
  design : Except String ArchitectureDesign
  wsExec : WsExec
  generate : Except String GeneratedCode
  fix : Nat → Option String → Option BuildResult → Except String GeneratedCode
  evaluate : Nat → Except String EvaluationResult
  build : Nat → BuildResult
  duration : Nat → ℚ
  totalDuration : ℚ

/-- `iterations[-1].build`: the build of the last recorded iteration (the
loop only reads this when the list is nonempty). -/
def prevBuildOf (s : LoopState) : Option BuildResult :=
  match s.iterations.getLast? with
  | some it => it.build
  | none => none

/-- The derived success flag of an iteration: the truth-value of the Python
expression `build_result and build_result.success`. -/
def succOf : Option BuildResult → Bool
  | some b => b.success
  | none => false

/-- Record the repair call made at the top of a round `> 1`
(instrumentation; round 1 records nothing). -/
def pushFix (i : Nat) (s : LoopState) : LoopState :=
  if i = 1 then s
  else { s with fixCalls := s.fixCalls ++ [⟨i, prevBuildOf s⟩] }

/-- `self.workspace_manager.save_code(...)` followed by
`final_code = generated.code`: the workspace now holds the formatted code
and `final_code` the raw code. -/
def setCode (c : String) (s : LoopState) : LoopState :=
  { s with finalCode := some c, wsContent := some (save_code_content c) }

/-- Record that the builder was invoked this round (instrumentation). -/
def pushBuildCall (i : Nat) (s : LoopState) : LoopState :=
  { s with buildCalls := s.buildCalls ++ [i] }

/-- `iterations.append(iteration_result)`. -/
def pushIter (it : IterationResult) (s : LoopState) : LoopState :=
  { s with iterations := s.iterations ++ [it] }

/-- The `for iteration_num in range(1, self.max_iterations + 1):` loop of
`generate_project` (orchestrator.py lines 136-277).  `remaining` counts the
rounds the `for` statement still has to yield (including the current one)
and `i` is `iteration_num`.  Each round: obtain code (generate on round 1,
repair from the previous build otherwise), save it to the workspace, set
`final_code`, evaluate, build when the score clears the 5.0 gate, append
the `IterationResult`, then stop on success, fall off the end at
`max_iterations`, stop early when the score is below 5.0, and otherwise
continue.  A raising collaborator call aborts with the current state. -/
def loopAux (env : Env) (mi : Nat) : Nat → Nat → LoopState → LoopOutcome
  | 0, _, s => .finished s
  | remaining + 1, i, s =>
    let s1 := pushFix i s
    match
      (if i = 1 then env.generate else env.fix i s.finalCode (prevBuildOf s))
    with
    | .error msg => .errored msg s1
    | .ok generated =>
      let s2 := setCode generated.code s1
      match env.evaluate i with
      | .error msg => .errored msg s2
      | .ok evaluation =>
        let buildRes : Option BuildResult :=
          if 5 ≤ evaluation.score then some (env.build i) else none
        let s3 := if 5 ≤ evaluation.score then pushBuildCall i s2 else s2
        let iterRes : IterationResult :=
          { iteration_number := i, code := generated,
            evaluation := evaluation, build := buildRes,
            success := succOf buildRes, duration := env.duration i }
        let s4 := pushIter iterRes s3
        if iterRes.success then .finished s4
        else if i = mi then .finished s4
        else if evaluation.score < 5 then .finished s4
        else loopAux env mi remaining (i + 1) s4

/-- The generation loop started from the empty state at round 1. -/
def runLoop (env : Env) (mi : Nat) : LoopOutcome :=
  loopAux env mi mi 1 ⟨[], none, none, [], []⟩

/-- `ProjectOrchestrator.generate_project` (orchestrator.py lines 50-333):
design the architecture, create the workspace (returning a failure result
when that fails), run the generation loop, and assemble the final
`ProjectResult`; an exception escaping a collaborator call is caught by the
surrounding `try` and turned into a failure result that carries only the
message (the `except` branch at lines 308-333 does not pass `iterations`).
`max_iterations` is the orchestrator's configured bound and `query` the
user query text. -/
def generate_project (env : Env) (max_iterations : Nat) (query : String) :
    ProjectResult :=
  match env.design with
  | .error e =>
    { success := false, project_name := query.take 20 ++ "...",
      error_message := some e, total_duration := env.totalDuration }
  | .ok architecture =>
    let requirements : CodeRequirements :=
      { project_name := architecture.project_name,
        description := architecture.description,
        features := architecture.features, architecture := architecture }
    let ws := create_workspace env.wsExec
    if ws.1 then
      match runLoop env max_iterations with
      | .errored e _ =>
        { success := false, project_name := query.take 20 ++ "...",
          error_message := some e, total_duration := env.totalDuration }
      | .finished s =>
        let success := s.iterations.any (·.success)
        { success := success, project_name := requirements.project_name,
          final_code := s.finalCode, iterations := s.iterations,
          total_iterations := s.iterations.length,
          total_duration := env.totalDuration,
          workspace_path := if success then some ws.2 else none }
    else
      { success := false, project_name := requirements.project_name,
        error_message := some ws.2 }

/-! ## Loop invariants -/

@[simp]
theorem succOf_some (b : BuildResult) : succOf (some b) = b.success := rfl

@[simp]
theorem succOf_none : succOf none = false := rfl

/-- Facts that hold of every `IterationResult` the loop constructs, by the
shape of the construction at orchestrator.py lines 201-231. -/
structure IterWF (it : IterationResult) : Prop where
  low_no_build : it.evaluation.score < 5 → it.build = none
  high_build : 5 ≤ it.evaluation.score → it.build.isSome
  succ_eq : it.success = succOf it.build

/-- The loop invariant at the top of round `i`: `i - 1` rounds have been
recorded, all of them continued (not successful, score at least the 5.0
gate, hence with a build present), iteration numbers are consecutive from
1, every recorded repair call happened in a round `≥ 2` and received the
build of the round before it (which was present), every recorded builder
invocation belongs to a round whose iteration carries a build, and the
workspace holds the formatted latest code. -/
structure LoopInv (i : Nat) (s : LoopState) : Prop where
  len_eq : s.iterations.length + 1 = i
  not_success : ∀ it ∈ s.iterations, it.success = false
  ge_thresh : ∀ it ∈ s.iterations, 5 ≤ it.evaluation.score
  wf : ∀ it ∈ s.iterations, IterWF it
  numbering : ∀ j (h : j < s.iterations.length),
    (s.iterations.get ⟨j, h⟩).iteration_number = j + 1
  fix_wf : ∀ c ∈ s.fixCalls, 2 ≤ c.round ∧
    ∃ it ∈ s.iterations, it.iteration_number = c.round - 1 ∧
      it.build = c.prevBuild ∧ it.build.isSome
  build_wf : ∀ r ∈ s.buildCalls,
    ∃ it ∈ s.iterations, it.iteration_number = r ∧ it.build.isSome
  ws_saved : s.wsContent = s.finalCode.map save_code_content

/-- What is true of the loop state when the loop has ended (normally or on
an exception): at most `mi` rounds recorded; every round other than the
last continued (not successful and score at least the gate); per-entry
well-formedness; consecutive numbering; and the repair / build-call and
workspace facts of the invariant. -/
structure LoopPost (mi : Nat) (s : LoopState) : Prop where
  length_le : s.iterations.length ≤ mi
  prefix_cont : ∀ it ∈ s.iterations.dropLast,
    it.success = false ∧ 5 ≤ it.evaluation.score
  wf : ∀ it ∈ s.iterations, IterWF it
  numbering : ∀ j (h : j < s.iterations.length),
    (s.iterations.get ⟨j, h⟩).iteration_number = j + 1
  fix_wf : ∀ c ∈ s.fixCalls, 2 ≤ c.round ∧
    ∃ it ∈ s.iterations, it.iteration_number = c.round - 1 ∧
      it.build = c.prevBuild ∧ it.build.isSome
  build_wf : ∀ r ∈ s.buildCalls,
    ∃ it ∈ s.iterations, it.iteration_number = r ∧ it.build.isSome
  ws_saved : s.wsContent = s.finalCode.map save_code_content

theorem numbering_append {l : List IterationResult} {x : IterationResult}
    (hl : ∀ j (h : j < l.length), (l.get ⟨j, h⟩).iteration_number = j + 1)
    (hx : x.iteration_number = l.length + 1) :
    ∀ j (h : j < (l ++ [x]).length),
      ((l ++ [x]).get ⟨j, h⟩).iteration_number = j + 1 := by
  intro j h
  have hj : j ≤ l.length := by
    simp only [List.length_append, List.length_singleton] at h
    omega
  rcases lt_or_eq_of_le hj with hj | hj
  · have : (l ++ [x]).get ⟨j, h⟩ = l.get ⟨j, hj⟩ := by
      simp [List.get_eq_getElem, List.getElem_append_left, hj]
    rw [this]
    exact hl j hj
  · subst hj
    simpa [List.get_eq_getElem] using hx

/-- The last recorded iteration, at the top of round `i ≥ 2`: it exists, it
is numbered `i - 1`, its build is what `prevBuildOf` reads, and that build
is present. -/
theorem last_entry_facts {i : Nat} {s : LoopState} (hinv : LoopInv i s)
    (hne : s.iterations ≠ []) :
    ∃ it ∈ s.iterations, it.iteration_number = s.iterations.length ∧
      it.build = prevBuildOf s ∧ it.build.isSome := by
  refine ⟨s.iterations.getLast hne, List.getLast_mem hne, ?_, ?_, ?_⟩
  · have hlt : s.iterations.length - 1 < s.iterations.length := by
      cases h : s.iterations with
      | nil => exact absurd h hne
      | cons a t => simp [h]
    have := hinv.numbering (s.iterations.length - 1) hlt
    rw [List.getLast_eq_getElem, List.get_eq_getElem] at *
    rw [this]
    omega
  · unfold prevBuildOf
    rw [List.getLast?_eq_getLast_of_ne_nil hne]
  · exact (hinv.wf _ (List.getLast_mem hne)).high_build
      (hinv.ge_thresh _ (List.getLast_mem hne))

theorem inv_pushFix {i : Nat} {s : LoopState} (hinv : LoopInv i s)
    (hi : 2 ≤ i ∨ i = 1) : LoopInv i (pushFix i s) := by
  unfold pushFix
  by_cases h1 : i = 1
  · simpa [h1] using hinv
  · simp only [if_neg h1]
    have h2 : 2 ≤ i := by rcases hi with h | h; exact h; exact absurd h h1
    have hne : s.iterations ≠ [] := by
      have := hinv.len_eq
      intro hnil
      rw [hnil] at this
      simp at this
      omega
    obtain ⟨it, hmem, hnum, hbuild, hsome⟩ := last_entry_facts hinv hne
    refine ⟨hinv.len_eq, hinv.not_success, hinv.ge_thresh, hinv.wf,
      hinv.numbering, ?_, hinv.build_wf, hinv.ws_saved⟩
    intro c hc
    simp only [List.mem_append, List.mem_singleton] at hc
    rcases hc with hc | hc
    · exact hinv.fix_wf c hc
    · subst hc
      dsimp only
      refine ⟨h2, it, hmem, ?_, hbuild, hsome⟩
      rw [hnum]
      have := hinv.len_eq
      omega

theorem inv_setCode {i : Nat} {s : LoopState} (hinv : LoopInv i s)
    (c : String) : LoopInv i (setCode c s) := by
  unfold setCode
  exact ⟨hinv.len_eq, hinv.not_success, hinv.ge_thresh, hinv.wf,
    hinv.numbering, hinv.fix_wf, hinv.build_wf, rfl⟩

/-- Stopping the loop without recording anything further preserves the
postcondition. -/
theorem post_of_inv {mi i : Nat} {s : LoopState} (hinv : LoopInv i s)
    (hle : s.iterations.length ≤ mi) : LoopPost mi s := by
  refine ⟨hle, ?_, hinv.wf, hinv.numbering, hinv.fix_wf, hinv.build_wf,
    hinv.ws_saved⟩
  intro it hit
  have hmem := List.mem_of_mem_dropLast hit
  exact ⟨hinv.not_success _ hmem, hinv.ge_thresh _ hmem⟩

@[simp]
theorem pushBuildCall_iterations (i : Nat) (s : LoopState) :
    (pushBuildCall i s).iterations = s.iterations := rfl

@[simp]
theorem pushBuildCall_fixCalls (i : Nat) (s : LoopState) :
    (pushBuildCall i s).fixCalls = s.fixCalls := rfl

@[simp]
theorem pushBuildCall_buildCalls (i : Nat) (s : LoopState) :
    (pushBuildCall i s).buildCalls = s.buildCalls ++ [i] := rfl

@[simp]
theorem pushBuildCall_finalCode (i : Nat) (s : LoopState) :
    (pushBuildCall i s).finalCode = s.finalCode := rfl

@[simp]
theorem pushBuildCall_wsContent (i : Nat) (s : LoopState) :
    (pushBuildCall i s).wsContent = s.wsContent := rfl

@[simp]
theorem pushIter_iterations (it : IterationResult) (s : LoopState) :
    (pushIter it s).iterations = s.iterations ++ [it] := rfl

@[simp]
theorem pushIter_fixCalls (it : IterationResult) (s : LoopState) :
    (pushIter it s).fixCalls = s.fixCalls := rfl

@[simp]
theorem pushIter_buildCalls (it : IterationResult) (s : LoopState) :
    (pushIter it s).buildCalls = s.buildCalls := rfl

@[simp]
theorem pushIter_finalCode (it : IterationResult) (s : LoopState) :
    (pushIter it s).finalCode = s.finalCode := rfl

@[simp]
theorem pushIter_wsContent (it : IterationResult) (s : LoopState) :
    (pushIter it s).wsContent = s.wsContent := rfl

/-- Membership in a list after appending one element. -/
theorem mem_push {α : Type} {l : List α} {x y : α}
    (h : y ∈ l ++ [x]) : y ∈ l ∨ y = x := by
  simpa using h

/-- Recording the round's iteration while the builder was invoked: the
postcondition holds of the resulting state (used for all three stop
branches of a round with a build). -/
theorem post_withBuild {mi i : Nat} {s : LoopState} (hinv : LoopInv i s)
    (hile : i ≤ mi) (it : IterationResult) (hnum : it.iteration_number = i)
    (hwf : IterWF it) (hbs : it.build.isSome) :
    LoopPost mi (pushIter it (pushBuildCall i s)) := by
  have hlen := hinv.len_eq
  refine ⟨?_, ?_, ?_, ?_, ?_, ?_, ?_⟩
  · simp only [pushIter_iterations, pushBuildCall_iterations,
      List.length_append, List.length_singleton]
    omega
  · intro it' hit'
    simp only [pushIter_iterations, pushBuildCall_iterations,
      List.dropLast_concat] at hit'
    exact ⟨hinv.not_success _ hit', hinv.ge_thresh _ hit'⟩
  · intro it' hit'
    simp only [pushIter_iterations, pushBuildCall_iterations] at hit'
    rcases mem_push hit' with h | h
    · exact hinv.wf _ h
    · subst h; exact hwf
  · simp only [pushIter_iterations, pushBuildCall_iterations]
    exact numbering_append hinv.numbering (by omega)
  · intro c hc
    simp only [pushIter_fixCalls, pushBuildCall_fixCalls] at hc
    obtain ⟨hr, it', hmem, hfacts⟩ := hinv.fix_wf c hc
    exact ⟨hr, it', by simp [List.mem_append, hmem], hfacts⟩
  · intro r hr
    simp only [pushIter_buildCalls, pushBuildCall_buildCalls] at hr
    simp only [pushIter_iterations, pushBuildCall_iterations]
    rcases mem_push hr with h | h
    · obtain ⟨it', hmem, hfacts⟩ := hinv.build_wf r h
      exact ⟨it', by simp [List.mem_append, hmem], hfacts⟩
    · subst h
      exact ⟨it, by simp, hnum, hbs⟩
  · simpa using hinv.ws_saved

/-- Recording the round's iteration without a builder invocation: the
postcondition holds of the resulting state. -/
theorem post_noBuild {mi i : Nat} {s : LoopState} (hinv : LoopInv i s)
    (hile : i ≤ mi) (it : IterationResult) (hnum : it.iteration_number = i)
    (hwf : IterWF it) : LoopPost mi (pushIter it s) := by
  have hlen := hinv.len_eq
  refine ⟨?_, ?_, ?_, ?_, ?_, ?_, ?_⟩
  · simp only [pushIter_iterations, List.length_append,
      List.length_singleton]
    omega
  · intro it' hit'
    simp only [pushIter_iterations, List.dropLast_concat] at hit'
    exact ⟨hinv.not_success _ hit', hinv.ge_thresh _ hit'⟩
  · intro it' hit'
    simp only [pushIter_iterations] at hit'
    rcases mem_push hit' with h | h
    · exact hinv.wf _ h
    · subst h; exact hwf
  · simp only [pushIter_iterations]
    exact numbering_append hinv.numbering (by omega)
  · intro c hc
    simp only [pushIter_fixCalls] at hc
    obtain ⟨hr, it', hmem, hfacts⟩ := hinv.fix_wf c hc
    exact ⟨hr, it', by simp [List.mem_append, hmem], hfacts⟩
  · intro r hr
    simp only [pushIter_buildCalls] at hr
    obtain ⟨it', hmem, hfacts⟩ := hinv.build_wf r hr
    exact ⟨it', by simp [List.mem_append, hmem], hfacts⟩
  · simpa using hinv.ws_saved

/-- Continuing to the next round after a recorded build-bearing iteration
that did not succeed and scored at least the gate: the loop invariant holds
at round `i + 1`. -/
theorem inv_withBuild {i : Nat} {s : LoopState} (hinv : LoopInv i s)
    (it : IterationResult) (hnum : it.iteration_number = i)
    (hwf : IterWF it) (hbs : it.build.isSome)
    (hsucc : it.success = false) (hge : 5 ≤ it.evaluation.score) :
    LoopInv (i + 1) (pushIter it (pushBuildCall i s)) := by
  have hlen := hinv.len_eq
  refine ⟨?_, ?_, ?_, ?_, ?_, ?_, ?_, ?_⟩
  · simp only [pushIter_iterations, pushBuildCall_iterations,
      List.length_append, List.length_singleton]
    omega
  · intro it' hit'
    simp only [pushIter_iterations, pushBuildCall_iterations] at hit'
    rcases mem_push hit' with h | h
    · exact hinv.not_success _ h
    · subst h; exact hsucc
  · intro it' hit'
    simp only [pushIter_iterations, pushBuildCall_iterations] at hit'
    rcases mem_push hit' with h | h
    · exact hinv.ge_thresh _ h
    · subst h; exact hge
  · intro it' hit'
    simp only [pushIter_iterations, pushBuildCall_iterations] at hit'
    rcases mem_push hit' with h | h
    · exact hinv.wf _ h
    · subst h; exact hwf
  · simp only [pushIter_iterations, pushBuildCall_iterations]
    exact numbering_append hinv.numbering (by omega)
  · intro c hc
    simp only [pushIter_fixCalls, pushBuildCall_fixCalls] at hc
    obtain ⟨hr, it', hmem, hfacts⟩ := hinv.fix_wf c hc
    exact ⟨hr, it', by simp [List.mem_append, hmem], hfacts⟩
  · intro r hr
    simp only [pushIter_buildCalls, pushBuildCall_buildCalls] at hr
    simp only [pushIter_iterations, pushBuildCall_iterations]
    rcases mem_push hr with h | h
    · obtain ⟨it', hmem, hfacts⟩ := hinv.build_wf r h
      exact ⟨it', by simp [List.mem_append, hmem], hfacts⟩
    · subst h
      exact ⟨it, by simp, hnum, hbs⟩
  · simpa using hinv.ws_saved

/-- Main loop lemma: from any round `i` whose state satisfies the loop
invariant, with `remaining` rounds still to be yielded by the `for`
statement (`i + remaining = mi + 1`), the loop ends in a state satisfying
the postcondition, whether it finishes or aborts on an exception. -/
theorem loopAux_post (env : Env) (mi : Nat) :
    ∀ remaining i s, LoopInv i s → i + remaining = mi + 1 →
      LoopPost mi (loopAux env mi remaining i s).state := by
  intro remaining
  induction remaining with
  | zero =>
    intro i s hinv hsum
    have hle : s.iterations.length ≤ mi := by
      have := hinv.len_eq
      omega
    exact post_of_inv hinv hle
  | succ r ih =>
    intro i s hinv hsum
    have hile : i ≤ mi := by omega
    have hlen := hinv.len_eq
    have hi2 : 2 ≤ i ∨ i = 1 := by omega
    have hinv1 : LoopInv i (pushFix i s) := inv_pushFix hinv hi2
    have hlen1 : (pushFix i s).iterations.length ≤ mi := by
      have := hinv1.len_eq
      omega
    simp only [loopAux]
    cases hgen :
      (if i = 1 then env.generate else env.fix i s.finalCode (prevBuildOf s))
    with
    | error msg =>
      exact post_of_inv hinv1 hlen1
    | ok generated =>
      have hinv2 : LoopInv i (setCode generated.code (pushFix i s)) :=
        inv_setCode hinv1 generated.code
      have hlen2 :
          (setCode generated.code (pushFix i s)).iterations.length ≤ mi :=
        hlen1
      cases heval : env.evaluate i with
      | error msg =>
        exact post_of_inv hinv2 hlen2
      | ok evaluation =>
        by_cases hsc : (5 : ℚ) ≤ evaluation.score
        · simp only [if_pos hsc, succOf_some]
          cases hbs : (env.build i).success with
          | true =>
            simp only [hbs, if_true]
            exact post_withBuild hinv2 hile _ rfl
              ⟨fun h => absurd h (not_lt.mpr hsc), fun _ => rfl, by
                simp [hbs]⟩ (by simp)
          | false =>
            simp only [hbs, Bool.false_eq_true, if_false]
            by_cases him : i = mi
            · simp only [if_pos him]
              exact post_withBuild hinv2 hile _ rfl
                ⟨fun h => absurd h (not_lt.mpr hsc), fun _ => rfl, by
                  simp [hbs]⟩ (by simp)
            · simp only [if_neg him, if_neg (not_lt.mpr hsc)]
              exact ih (i + 1) _
                (inv_withBuild hinv2 _ rfl
                  ⟨fun h => absurd h (not_lt.mpr hsc), fun _ => rfl, by
                    simp [hbs]⟩ (by simp) (by simp [hbs]) hsc)
                (by omega)
        · have hlt : evaluation.score < 5 := not_le.mp hsc
          simp only [if_neg hsc, succOf_none, Bool.false_eq_true, if_false]
          by_cases him : i = mi
          · simp only [if_pos him]
            exact post_noBuild hinv2 hile _ rfl
              ⟨fun _ => rfl, fun h => absurd h (not_le.mpr hlt), by simp⟩
          · simp only [if_neg him, if_pos hlt]
            exact post_noBuild hinv2 hile _ rfl
              ⟨fun _ => rfl, fun h => absurd h (not_le.mpr hlt), by simp⟩

/-- The postcondition holds of every full run of the loop. -/
theorem runLoop_post (env : Env) (mi : Nat) :
    LoopPost mi ((runLoop env mi).state) := by
  have hinv : LoopInv 1 ⟨[], none, none, [], []⟩ := by
    refine ⟨rfl, ?_, ?_, ?_, ?_, ?_, ?_, rfl⟩
    · intro it hit
      exact absurd hit (List.not_mem_nil it)
    · intro it hit
      exact absurd hit (List.not_mem_nil it)
    · intro it hit
      exact absurd hit (List.not_mem_nil it)
    · intro j h
      exact absurd h (Nat.not_lt_zero j)
    · intro c hc
      exact absurd hc (List.not_mem_nil c)
    · intro r hr
      exact absurd hr (List.not_mem_nil r)
  exact loopAux_post env mi mi 1 _ hinv (by omega)

/-- When the generator, repairer and evaluator never raise, the loop never
aborts on an exception: every builder outcome (timeout, missing toolchain,
compile error) is an ordinary `BuildResult` handled by the loop. -/
theorem loopAux_no_error (env : Env) (mi : Nat)
    (hg : ∀ msg, env.generate ≠ .error msg)
    (hf : ∀ i pc pb msg, env.fix i pc pb ≠ .error msg)
    (he : ∀ i msg, env.evaluate i ≠ .error msg) :
    ∀ remaining i s, (loopAux env mi remaining i s).errorMsg = none := by
  intro remaining
  induction remaining with
  | zero =>
    intro i s
    rfl
  | succ r ih =>
    intro i s
    simp only [loopAux]
    cases hgen :
      (if i = 1 then env.generate else env.fix i s.finalCode (prevBuildOf s))
    with
    | error msg =>
      by_cases hi : i = 1
      · rw [if_pos hi] at hgen
        exact absurd hgen (hg msg)
      · rw [if_neg hi] at hgen
        exact absurd hgen (hf i _ _ msg)
    | ok generated =>
      cases heval : env.evaluate i with
      | error msg =>
        exact absurd heval (he i msg)
      | ok evaluation =>
        by_cases hsc : (5 : ℚ) ≤ evaluation.score
        · simp only [if_pos hsc, succOf_some]
          cases hbs : (env.build i).success with
          | true =>
            simp only [hbs, if_true]
            rfl
          | false =>
            simp only [hbs, Bool.false_eq_true, if_false]
            by_cases him : i = mi
            · simp only [if_pos him]
              rfl
            · simp only [if_neg him, if_neg (not_lt.mpr hsc)]
              exact ih (i + 1) _
        · simp only [if_neg hsc, succOf_none, Bool.false_eq_true, if_false]
          by_cases him : i = mi
          · simp only [if_pos him]
            rfl
          · simp only [if_neg him, if_pos (not_le.mp hsc)]
            rfl

/-- Case analysis of `generate_project`: either the run failed before or
during the loop (no iterations in the result, success false), or the loop
finished and the result exposes its history verbatim. -/
theorem generate_project_cases (env : Env) (mi : Nat) (q : String) :
    ((generate_project env mi q).iterations = [] ∧
      (generate_project env mi q).success = false ∧
      (generate_project env mi q).total_iterations = 0) ∨
    ∃ s, runLoop env mi = .finished s ∧
      (generate_project env mi q).iterations = s.iterations ∧
      (generate_project env mi q).success = s.iterations.any (·.success) ∧
      (generate_project env mi q).total_iterations = s.iterations.length := by
  unfold generate_project
  cases env.design with
  | error e =>
    exact Or.inl ⟨rfl, rfl, rfl⟩
  | ok a =>
    by_cases hws : (create_workspace env.wsExec).1 = true
    · simp only [hws, if_true]
      cases hloop : runLoop env mi with
      | errored msg s =>
        exact Or.inl ⟨rfl, rfl, rfl⟩
      | finished s =>
        exact Or.inr ⟨s, rfl, rfl, rfl, rfl⟩
    · simp only [Bool.not_eq_true] at hws
      simp only [hws, Bool.false_eq_true, if_false]
      exact Or.inl ⟨trivial, trivial, trivial⟩

/-! ## Normal form of the save_code formatter -/

/-- Whether the two-character pattern `a b` occurs contiguously in the
list. -/
def hasPair (a b : Char) : List Char → Bool
  | x :: y :: rest => (x = a && y = b) || hasPair a b (y :: rest)
  | _ => false

/-- Whether the first character, if any, is not Python whitespace. -/
def headNotSpace (s : List Char) : Bool :=
  match s.head? with
  | some c => !pyIsSpace c
  | none => true

/-- Whether the last character, if any, is not Python whitespace. -/
def lastNotSpace (s : List Char) : Bool :=
  match s.getLast? with
  | some c => !pyIsSpace c
  | none => true

/-- Code already in the formatter's normal form: no literal backslash-n
escape, no run of three newlines, no adjacent closing/opening braces, and
no leading or trailing whitespace. -/
def normalizedCode (s : List Char) : Bool :=
  !hasPair '\\' 'n' s && !hasTriple s && !hasPair '\x7d' '\x7b' s &&
    headNotSpace s && lastNotSpace s

theorem hasPair_tail {a b c : Char} {rest : List Char}
    (h : hasPair a b (c :: rest) = false) : hasPair a b rest = false := by
  cases rest with
  | nil => rfl
  | cons y r =>
    simp only [hasPair, Bool.or_eq_false_iff] at h
    exact h.2

theorem replaceEscNl_eq_self (s : List Char)
    (h : hasPair '\\' 'n' s = false) : replaceEscNl s = s := by
  induction s using replaceEscNl.induct with
  | case1 rest ih =>
    simp [hasPair] at h
  | case2 c rest hne ih =>
    have hstep : replaceEscNl (c :: rest) = c :: replaceEscNl rest := by
      rw [replaceEscNl.eq_def]
      split
      · next x rest1 heq =>
        injection heq with h1 h2
        exact (hne rest1 h1 h2).elim
      · next x c1 rest1 hg heq =>
        injection heq with h1 h2
        rw [h1, h2]
      · next x heq =>
        exact absurd heq (List.cons_ne_nil c rest)
    rw [hstep, ih (hasPair_tail h)]
  | case3 => rfl

theorem replaceBrace_eq_self (s : List Char)
    (h : hasPair '\x7d' '\x7b' s = false) : replaceBrace s = s := by
  induction s using replaceBrace.induct with
  | case1 rest ih =>
    simp [hasPair] at h
  | case2 c rest hne ih =>
    have hstep : replaceBrace (c :: rest) = c :: replaceBrace rest := by
      rw [replaceBrace.eq_def]
      split
      · next x rest1 heq =>
        injection heq with h1 h2
        exact (hne rest1 h1 h2).elim
      · next x c1 rest1 hg heq =>
        injection heq with h1 h2
        rw [h1, h2]
      · next x heq =>
        exact absurd heq (List.cons_ne_nil c rest)
    rw [hstep, ih (hasPair_tail h)]
  | case3 => rfl

theorem collapseLoop_eq_self (n : Nat) (s : List Char)
    (h : hasTriple s = false) : collapseLoop n s = s := by
  cases n with
  | zero => rfl
  | succ m =>
    simp [collapseLoop, h]

theorem pyLstrip_eq_self (s : List Char) (h : headNotSpace s = true) :
    pyLstrip s = s := by
  cases s with
  | nil => rfl
  | cons c rest =>
    simp only [headNotSpace, List.head?] at h
    simp only [pyLstrip, Bool.not_eq_true'] at *
    rw [if_neg]
    simp [h]

theorem pyStrip_eq_self (s : List Char) (h1 : headNotSpace s = true)
    (h2 : lastNotSpace s = true) : pyStrip s = s := by
  unfold pyStrip
  rw [pyLstrip_eq_self s h1]
  have hrev : headNotSpace s.reverse = true := by
    unfold headNotSpace at *
    unfold lastNotSpace at h2
    rw [List.head?_reverse]
    exact h2
  rw [pyLstrip_eq_self s.reverse hrev, List.reverse_reverse]

/-- Code already in normal form passes through the `save_code` formatter
unchanged. -/
theorem save_code_content_eq_self (code : String)
    (h : normalizedCode code.data = true) : save_code_content code = code := by
  unfold normalizedCode at h
  simp only [Bool.and_eq_true, Bool.not_eq_true'] at h
  obtain ⟨⟨⟨⟨h1, h2⟩, h3⟩, h4⟩, h5⟩ := h
  unfold save_code_content
  dsimp only
  rw [replaceEscNl_eq_self _ h1, collapseLoop_eq_self _ _ h2,
    replaceBrace_eq_self _ h3, pyStrip_eq_self _ h4 h5]

/-- A list entry strictly before the last one lies in `dropLast`. -/
theorem get_mem_dropLast {α : Type} {l : List α} {j : Nat}
    (h : j < l.length) (hj : j + 1 < l.length) :
    l.get ⟨j, h⟩ ∈ l.dropLast := by
  have h' : j < l.dropLast.length := by
    simp only [List.length_dropLast]
    omega
  have heq : l.dropLast.get ⟨j, h'⟩ = l.get ⟨j, h⟩ := by
    simp [List.get_eq_getElem, List.getElem_dropLast]
  rw [← heq]
  exact List.get_mem _ _ _

/-- Iteration numbers determine entries: two recorded iterations with the
same number are the same entry. -/
theorem number_injective {s : LoopState} {mi : Nat}
    (post : LoopPost mi s) {it it' : IterationResult}
    (hm : it ∈ s.iterations) (hm' : it' ∈ s.iterations)
    (hn : it.iteration_number = it'.iteration_number) : it = it' := by
  obtain ⟨j, hj⟩ := List.mem_iff_get.mp hm
  obtain ⟨k, hk⟩ := List.mem_iff_get.mp hm'
  have hjn : it.iteration_number = (j : Nat) + 1 := by
    rw [← hj]
    exact post.numbering j.val j.isLt
  have hkn : it'.iteration_number = (k : Nat) + 1 := by
    rw [← hk]
    exact post.numbering k.val k.isLt
  have hjk : j = k := by
    apply Fin.ext
    omega
  rw [← hj, ← hk, hjk]

/-! ## Concrete runs (witnesses and counterexamples) -/

/-- An evaluation result with the given score. -/
def evalWith (sc : ℚ) : EvaluationResult :=
  { is_complete := true, has_errors := false, score := sc }

/-- A build result with the given success flag. -/
def buildWith (b : Bool) : BuildResult :=
  { status := if b then .success else .error, success := b, build_time := 1 }

/-- A run whose first round scores 9 and builds successfully. -/
def envPass : Env where
  design := .ok { project_name := "demo" }
  wsExec := .already "output/demo"
  generate := .ok { code := "program demo.aleo \x7b \x7d" }
  fix := fun i _ _ => .ok { code := "fix" ++ toString i }
  evaluate := fun _ => .ok (evalWith 9)
  build := fun _ => buildWith true
  duration := fun _ => 1
  totalDuration := 5

/-- The run of the spec's Scenario A: round 1 would score 3, round 2 would
score 7 with a failing build, round 3 would score 8 with a passing
build. -/
def envA : Env where
  design := .ok { project_name := "scenario_a" }
  wsExec := .already "output/scenario_a"
  generate := .ok { code := "round1" }
  fix := fun i _ _ => .ok { code := "round" ++ toString i }
  evaluate := fun i =>
    .ok (evalWith (if i = 1 then 3 else if i = 2 then 7 else 8))
  build := fun i => buildWith (decide (i = 3))
  duration := fun _ => 1
  totalDuration := 9

/-- A run whose rounds all score 7 with failing builds, so every round
after the first goes through the repair branch. -/
def envRepair : Env where
  design := .ok { project_name := "repairs" }
  wsExec := .created "output/repairs"
  generate := .ok { code := "v1" }
  fix := fun i _ _ => .ok { code := "v" ++ toString i }
  evaluate := fun _ => .ok (evalWith 7)
  build := fun _ => buildWith false
  duration := fun _ => 1
  totalDuration := 4

/-- A run whose first round completes (score 7, failing build) and whose
second round's evaluation raises. -/
def envCrash : Env where
  design := .ok { project_name := "crashy" }
  wsExec := .already "output/crashy"
  generate := .ok { code := "v1" }
  fix := fun i _ _ => .ok { code := "v" ++ toString i }
  evaluate := fun i =>
    if i = 1 then .ok (evalWith 7) else .error "evaluation service down"
  build := fun _ => buildWith false
  duration := fun _ => 1
  totalDuration := 6

/-- A run whose build subprocess times out every round. -/
def envTimeout : Env where
  design := .ok { project_name := "slow" }
  wsExec := .already "output/slow"
  generate := .ok { code := "v1" }
  fix := fun i _ _ => .ok { code := "v" ++ toString i }
  evaluate := fun _ => .ok (evalWith 9)
  build := fun _ => build_project 60 .timedOut 60 []
  duration := fun _ => 1
  totalDuration := 61

/-- A run where the `leo` CLI is absent, so workspace creation fails. -/
def envWsFail : Env where
  design := .ok { project_name := "nofs" }
  wsExec := .cliMissing
  generate := .ok { code := "v1" }
  fix := fun i _ _ => .ok { code := "v" ++ toString i }
  evaluate := fun _ => .ok (evalWith 9)
  build := fun _ => buildWith true
  duration := fun _ => 1
  totalDuration := 1

/-! ## Claims -/

/-- C1: for every run, the final result's success flag is true if and only
if at least one recorded iteration has success true (the flag is computed
as `any(i.success for i in iterations)`); any successful iteration is the
last entry of the recorded history, so if iteration `k` is the first with
success true the loop stops there, the history has exactly `k` entries
(iteration numbers run consecutively from 1), and no iteration after `k`
exists. -/
theorem run_success_iff_iteration_success (env : Env) (mi : Nat)
    (q : String) :
    (generate_project env mi q).success =
        (generate_project env mi q).iterations.any (·.success) ∧
      (∀ j (h : j < (generate_project env mi q).iterations.length),
        ((generate_project env mi q).iterations.get ⟨j, h⟩).success = true →
          j + 1 = (generate_project env mi q).iterations.length) ∧
      (∀ j (h : j < (generate_project env mi q).iterations.length),
        ((generate_project env mi q).iterations.get ⟨j, h⟩).iteration_number
          = j + 1) := by
  rcases generate_project_cases env mi q with
    ⟨hit, hsucc, _⟩ | ⟨s, hloop, hit, hsucc, _⟩
  · rw [hit, hsucc]
    refine ⟨rfl, ?_, ?_⟩ <;>
      · intro j h
        exact absurd h (by simp)
  · have post := runLoop_post env mi
    rw [hloop] at post
    rw [hit, hsucc]
    refine ⟨rfl, ?_, post.numbering⟩
    intro j h hj
    by_contra hne
    have hlt : j + 1 < s.iterations.length := by omega
    have hmem := get_mem_dropLast h hlt
    have := (post.prefix_cont _ hmem).1
    rw [this] at hj
    exact Bool.false_ne_true hj

/-- Witness for C1 at a concrete run: in `envPass` with one round, the
first iteration succeeds and is indeed the last (the history has exactly
one entry). -/
theorem run_success_iff_iteration_success_witness :
    0 + 1 = (generate_project envPass 1 "demo query").iterations.length :=
  (run_success_iff_iteration_success envPass 1 "demo query").2.1 0
    (by decide) (by decide)

/-- C2: for every run — including runs that fail before the loop or abort
on an exception — the recorded iteration history never exceeds the
configured `max_iterations` bound. -/
theorem iterations_length_le_max (env : Env) (mi : Nat) (q : String) :
    (generate_project env mi q).iterations.length ≤ mi ∧
      (generate_project env mi q).total_iterations ≤ mi := by
  rcases generate_project_cases env mi q with
    ⟨hit, _, htot⟩ | ⟨s, hloop, hit, _, htot⟩
  · rw [hit, htot]
    exact ⟨by simp, by simp⟩
  · have post := runLoop_post env mi
    rw [hloop] at post
    rw [hit, htot]
    exact ⟨post.length_le, post.length_le⟩

/-- Indexing transported along an equality of lists. -/
theorem get_congr {α : Type} {l l' : List α} (hit : l = l') {j : Nat}
    (h : j < l.length) (h' : j < l'.length) :
    l.get ⟨j, h⟩ = l'.get ⟨j, h'⟩ := by
  subst hit
  rfl

/-- C3: every recorded round whose evaluation score is strictly below the
5.0 build gate carries no build outcome, and the builder was never invoked
in that round (its round number is absent from the instrumented list of
builder invocations). -/
theorem low_score_round_no_build (env : Env) (mi : Nat) (q : String) :
    ∀ j (h : j < (generate_project env mi q).iterations.length),
      ((generate_project env mi q).iterations.get ⟨j, h⟩).evaluation.score
          < 5 →
        ((generate_project env mi q).iterations.get ⟨j, h⟩).build = none ∧
          ((generate_project env mi q).iterations.get
              ⟨j, h⟩).iteration_number ∉
            (runLoop env mi).state.buildCalls := by
  rcases generate_project_cases env mi q with
    ⟨hit, _, _⟩ | ⟨s, hloop, hit, _, _⟩
  · intro j h
    rw [hit] at h
    exact absurd h (by simp)
  · have post := runLoop_post env mi
    rw [hloop] at post
    intro j h hsc
    have h' : j < s.iterations.length := by
      rw [← hit]
      exact h
    have hget : (generate_project env mi q).iterations.get ⟨j, h⟩ =
        s.iterations.get ⟨j, h'⟩ := get_congr hit h h'
    rw [hget] at hsc ⊢
    rw [hloop]
    have hmem : s.iterations.get ⟨j, h'⟩ ∈ s.iterations :=
      List.get_mem _ _ _
    have hnone : (s.iterations.get ⟨j, h'⟩).build = none :=
      (post.wf _ hmem).low_no_build hsc
    refine ⟨hnone, ?_⟩
    intro habs
    obtain ⟨it', hmem', hnum', hsome'⟩ := post.build_wf _ habs
    have : it' = s.iterations.get ⟨j, h'⟩ :=
      number_injective post hmem' hmem hnum'
    rw [this, hnone] at hsome'
    exact Bool.false_ne_true hsome'

/-- Witness for C3 at a concrete run: in `envA` the first round scores 3
and its recorded iteration has no build. -/
theorem low_score_round_no_build_witness :
    ∃ h : 0 < (generate_project envA 3 "scenario a").iterations.length,
      ((generate_project envA 3 "scenario a").iterations.get
        ⟨0, h⟩).build = none :=
  ⟨by decide,
    (low_score_round_no_build envA 3 "scenario a" 0 (by decide)
      (by decide)).1⟩

/-- C4 counterexample: in the Scenario-A run (`max_iterations = 3`, round 1
scoring 3, later rounds available with scores 7 and 8), the loop does NOT
proceed to round 2: it stops after round 1 with a single recorded
iteration, refuting the claim that a round scoring below the build gate
but above a lower abandon floor continues. -/
theorem below_gate_continues_counterexample :
    (generate_project envA 3 "scenario a").iterations.map
        (fun it => (it.evaluation.score, it.build.isSome)) = [(3, false)] ∧
      (generate_project envA 3 "scenario a").total_iterations = 1 ∧
      (generate_project envA 3 "scenario a").success = false ∧
      envA.evaluate 2 = .ok (evalWith 7) ∧
      envA.evaluate 3 = .ok (evalWith 8) :=
  ⟨by decide, by decide, by decide, rfl, rfl⟩

/-- C4 as amended: in the code the abandon floor coincides with the build
gate (both are the 5.0 comparison), so every recorded round whose score is
below the build gate is the final round of the history — the round
completes without a build attempt and the loop stops there instead of
proceeding. -/
theorem below_gate_stops_loop (env : Env) (mi : Nat) (q : String) :
    ∀ j (h : j < (generate_project env mi q).iterations.length),
      ((generate_project env mi q).iterations.get ⟨j, h⟩).evaluation.score
          < 5 →
        ((generate_project env mi q).iterations.get ⟨j, h⟩).build = none ∧
          j + 1 = (generate_project env mi q).iterations.length := by
  rcases generate_project_cases env mi q with
    ⟨hit, _, _⟩ | ⟨s, hloop, hit, _, _⟩
  · intro j h
    rw [hit] at h
    exact absurd h (by simp)
  · have post := runLoop_post env mi
    rw [hloop] at post
    intro j h hsc
    have h' : j < s.iterations.length := by
      rw [← hit]
      exact h
    have hget : (generate_project env mi q).iterations.get ⟨j, h⟩ =
        s.iterations.get ⟨j, h'⟩ := get_congr hit h h'
    rw [hget] at hsc ⊢
    have hmem : s.iterations.get ⟨j, h'⟩ ∈ s.iterations :=
      List.get_mem _ _ _
    refine ⟨(post.wf _ hmem).low_no_build hsc, ?_⟩
    rw [hit]
    by_contra hne
    have hlt : j + 1 < s.iterations.length := by omega
    have hmemd := get_mem_dropLast h' hlt
    have := (post.prefix_cont _ hmemd).2
    exact absurd hsc (not_lt.mpr this)

/-- Witness for the amended C4 at a concrete run: in `envA` the round
scoring 3 is the single, final entry of the history. -/
theorem below_gate_stops_loop_witness :
    0 + 1 = (generate_project envA 3 "scenario a").iterations.length :=
  (below_gate_stops_loop envA 3 "scenario a" 0 (by decide) (by decide)).2

/-- C5: every repair call recorded during a run happens in a round `i ≥ 2`,
receives a present build outcome as its diagnostics argument, and that
argument is exactly the build of the iteration recorded for round
`i - 1`; rounds whose build gate was not cleared are never followed by a
repair call, because the loop stops instead. -/
theorem repair_receives_previous_build (env : Env) (mi : Nat) :
    ∀ c ∈ (runLoop env mi).state.fixCalls,
      2 ≤ c.round ∧ c.prevBuild.isSome = true ∧
        ∃ it ∈ (runLoop env mi).state.iterations,
          it.iteration_number = c.round - 1 ∧ it.build = c.prevBuild := by
  intro c hc
  have post := runLoop_post env mi
  obtain ⟨hr, it, hmem, hnum, hb, hsome⟩ := post.fix_wf c hc
  refine ⟨hr, ?_, it, hmem, hnum, hb⟩
  rw [← hb]
  exact hsome

/-- Witness for C5 at a concrete run: in `envRepair` with two rounds, the
repair call of round 2 received the (present) failing build of round 1. -/
theorem repair_receives_previous_build_witness :
    2 ≤ (⟨2, some (buildWith false)⟩ : FixCall).round ∧
      (⟨2, some (buildWith false)⟩ : FixCall).prevBuild.isSome = true ∧
      ∃ it ∈ (runLoop envRepair 2).state.iterations,
        it.iteration_number = (⟨2, some (buildWith false)⟩ : FixCall).round - 1 ∧
          it.build = (⟨2, some (buildWith false)⟩ : FixCall).prevBuild :=
  repair_receives_previous_build envRepair 2 ⟨2, some (buildWith false)⟩
    (by decide)

/-- C6: for every recorded iteration, the derived success flag is false
when no build outcome is present and equals the build outcome's success
flag when one is present (the truth-value of the Python expression
`build_result and build_result.success`, i.e. `succOf`). -/
theorem iteration_success_derived (env : Env) (mi : Nat) (q : String) :
    ∀ j (h : j < (generate_project env mi q).iterations.length),
      (((generate_project env mi q).iterations.get ⟨j, h⟩).build = none →
        ((generate_project env mi q).iterations.get ⟨j, h⟩).success
          = false) ∧
      ∀ b, ((generate_project env mi q).iterations.get ⟨j, h⟩).build
          = some b →
        ((generate_project env mi q).iterations.get ⟨j, h⟩).success
          = b.success := by
  rcases generate_project_cases env mi q with
    ⟨hit, _, _⟩ | ⟨s, hloop, hit, _, _⟩
  · intro j h
    rw [hit] at h
    exact absurd h (by simp)
  · have post := runLoop_post env mi
    rw [hloop] at post
    intro j h
    have h' : j < s.iterations.length := by
      rw [← hit]
      exact h
    have hget : (generate_project env mi q).iterations.get ⟨j, h⟩ =
        s.iterations.get ⟨j, h'⟩ := get_congr hit h h'
    rw [hget]
    have hmem : s.iterations.get ⟨j, h'⟩ ∈ s.iterations :=
      List.get_mem _ _ _
    have hs := (post.wf _ hmem).succ_eq
    constructor
    · intro hb
      rw [hs, hb]
      rfl
    · intro b hb
      rw [hs, hb]
      rfl

/-- Witness for C6 at a concrete run: the no-build iteration of `envA` has
success false. -/
theorem iteration_success_derived_witness :
    ∃ h : 0 < (generate_project envA 3 "scenario a").iterations.length,
      ((generate_project envA 3 "scenario a").iterations.get
        ⟨0, h⟩).success = false :=
  ⟨by decide,
    (iteration_success_derived envA 3 "scenario a" 0 (by decide)).1
      (by decide)⟩

/-- C7 counterexample: in `envCrash` the first round completes and is
recorded by the loop, the second round's evaluation raises, and the
returned result carries the exception's message — but its iteration
history is empty: the iteration that had completed does NOT remain in the
returned history (the `except` branch rebuilds `ProjectResult` without
passing `iterations`). -/
theorem error_keeps_history_counterexample :
    (runLoop envCrash 3).state.iterations.length = 1 ∧
      (generate_project envCrash 3 "crash query").error_message =
        some "evaluation service down" ∧
      (generate_project envCrash 3 "crash query").iterations = [] ∧
      (generate_project envCrash 3 "crash query").success = false := by
  refine ⟨by decide, by decide, by decide, by decide⟩

/-- C7 as amended: when a collaborator call raises during a round, the run
ends immediately with success false and the exception's message recorded
in the result's error message — but the returned result's iteration
history is empty (`total_iterations = 0`); iterations completed before the
error are dropped from the returned result. -/
theorem error_aborts_with_message (env : Env) (mi : Nat) (q : String)
    (a : ArchitectureDesign) (msg : String)
    (hd : env.design = .ok a)
    (hws : (create_workspace env.wsExec).1 = true)
    (herr : (runLoop env mi).errorMsg = some msg) :
    generate_project env mi q =
      { success := false, project_name := q.take 20 ++ "...",
        error_message := some msg,
        total_duration := env.totalDuration } := by
  unfold generate_project
  rw [hd]
  cases hloop : runLoop env mi with
  | finished s =>
    rw [hloop] at herr
    exact absurd herr (by simp [LoopOutcome.errorMsg])
  | errored m s =>
    rw [hloop] at herr
    simp only [LoopOutcome.errorMsg, Option.some.injEq] at herr
    rw [herr]
    simp only [hws, if_true]

/-- Witness for the amended C7 at a concrete run. -/
theorem error_aborts_with_message_witness :
    generate_project envCrash 3 "crash query" =
      { success := false, project_name := "crash query".take 20 ++ "...",
        error_message := some "evaluation service down",
        total_duration := 6 } :=
  error_aborts_with_message envCrash 3 "crash query"
    { project_name := "crashy" } "evaluation service down"
    rfl (by decide) (by decide)

/-- C8: a builder invocation that fails to complete is never a fatal run
error: a timed-out `leo build` subprocess yields a non-success
`BuildResult` with status `timeout`; a subprocess that cannot start
because the `leo` CLI is missing yields a non-success `BuildResult` with
status `unknown` (the spec's `toolchain-missing`) and the corresponding
message; and whenever the generator, repairer and evaluator do not raise,
the loop never aborts — every builder outcome is handled by the normal
termination rules. -/
theorem builder_failure_not_fatal :
    (∀ (t : Nat) (e : ℚ) (fs : List String),
      (build_project t .timedOut e fs).status = .timeout ∧
        (build_project t .timedOut e fs).success = false) ∧
    (∀ (t : Nat) (e : ℚ) (fs : List String),
      (build_project t .cliMissing e fs).status = .unknown ∧
        (build_project t .cliMissing e fs).success = false ∧
        (build_project t .cliMissing e fs).errors =
          ["Leo CLI not found. Please install Leo first."]) ∧
    (∀ (env : Env) (mi : Nat),
      (∀ msg, env.generate ≠ .error msg) →
      (∀ i pc pb msg, env.fix i pc pb ≠ .error msg) →
      (∀ i msg, env.evaluate i ≠ .error msg) →
      (runLoop env mi).errorMsg = none) := by
  refine ⟨?_, ?_, ?_⟩
  · intro t e fs
    exact ⟨rfl, rfl⟩
  · intro t e fs
    exact ⟨rfl, rfl, rfl⟩
  · intro env mi hg hf he
    exact loopAux_no_error env mi hg hf he mi 1 _

/-- Witness for C8 at concrete inputs: the 60-second timeout build is a
timeout-status non-fatal outcome, and the `envTimeout` run (whose every
build times out) finishes without an exception. -/
theorem builder_failure_not_fatal_witness :
    (build_project 60 .timedOut 60 []).status = .timeout ∧
      (runLoop envTimeout 1).errorMsg = none :=
  ⟨(builder_failure_not_fatal.1 60 60 []).1,
    builder_failure_not_fatal.2.2 envTimeout 1
      (fun _ h => Except.noConfusion h)
      (fun _ _ _ _ h => Except.noConfusion h)
      (fun _ _ h => Except.noConfusion h)⟩

/-- C9: when workspace creation fails (after a successful design step), the
run ends immediately with success false, a populated (nonempty) error
message equal to the failure string of `create_workspace`, and an empty
iteration history with `total_iterations = 0`; and the result does not
depend on the generator, repairer, evaluator or builder — none of them is
ever called. -/
theorem workspace_failure_aborts (env : Env) (mi : Nat) (q : String)
    (a : ArchitectureDesign) (hd : env.design = .ok a)
    (hws : (create_workspace env.wsExec).1 = false) :
    (generate_project env mi q).success = false ∧
      (generate_project env mi q).error_message =
        some (create_workspace env.wsExec).2 ∧
      (create_workspace env.wsExec).2 ≠ "" ∧
      (generate_project env mi q).iterations = [] ∧
      (generate_project env mi q).total_iterations = 0 ∧
      ∀ g f e b d,
        generate_project
          { env with
            generate := g
            fix := f
            evaluate := e
            build := b
            duration := d } mi q = generate_project env mi q := by
  obtain ⟨des, wse, gen, fx, ev, bu, du, td⟩ := env
  dsimp only at hd hws ⊢
  subst hd
  have hne : (create_workspace wse).2 ≠ "" := by
    cases wse with
    | already p =>
      exact absurd hws (by simp [create_workspace])
    | created p =>
      exact absurd hws (by simp [create_workspace])
    | procError stderr =>
      simp only [create_workspace]
      intro hemp
      have hlenq := congrArg String.length hemp
      rw [String.length_append] at hlenq
      have h28 : ("Failed to create workspace: ").length = 28 := rfl
      have h0 : ("" : String).length = 0 := rfl
      rw [h28, h0] at hlenq
      omega
    | cliMissing =>
      intro hemp
      exact absurd (congrArg String.length hemp) (by decide)
  refine ⟨?_, ?_, hne, ?_, ?_, ?_⟩
  · unfold generate_project
    simp only [hws, Bool.false_eq_true, if_false]
  · unfold generate_project
    simp only [hws, Bool.false_eq_true, if_false]
  · unfold generate_project
    simp only [hws, Bool.false_eq_true, if_false]
  · unfold generate_project
    simp only [hws, Bool.false_eq_true, if_false]
  · intro g f e b d
    unfold generate_project
    simp only [hws, Bool.false_eq_true, if_false]

/-- Witness for C9 at a concrete run: in `envWsFail` the `leo` CLI is
absent, the run fails with the corresponding message and an empty
history. -/
theorem workspace_failure_aborts_witness :
    (generate_project envWsFail 5 "query").success = false ∧
      (generate_project envWsFail 5 "query").total_iterations = 0 :=
  ⟨(workspace_failure_aborts envWsFail 5 "query" { project_name := "nofs" }
      rfl rfl).1,
    (workspace_failure_aborts envWsFail 5 "query" { project_name := "nofs" }
      rfl rfl).2.2.2.2.1⟩

/-- C10 counterexample: the persistence step does not store the source
text unmodified — saving the two-character text consisting of a closing
brace followed by an opening brace stores it with a newline inserted
between the braces. -/
theorem saved_equals_source_counterexample :
    save_code_content "\x7d\x7b" ≠ "\x7d\x7b" ∧
      save_code_content "\x7d\x7b" = "\x7d\n\x7b" := by
  refine ⟨by decide, by decide⟩

/-- C10 as amended: after each round's persistence step the workspace
holds exactly the formatter's output on that round's source text (the
latest generated text is always what the workspace persists), and for
source text already in the formatter's normal form — no literal backslash-n
escape, no triple newline, no adjacent closing/opening brace pair, and no
surrounding whitespace — the stored content equals the source text
exactly. -/
theorem saved_content_is_formatted_source (env : Env) (mi : Nat)
    (code : String) :
    (runLoop env mi).state.wsContent =
        ((runLoop env mi).state.finalCode).map save_code_content ∧
      (normalizedCode code.data = true → save_code_content code = code) :=
  ⟨(runLoop_post env mi).ws_saved,
    fun h => save_code_content_eq_self code h⟩

/-- Witness for the amended C10 at a concrete normalized source text. -/
theorem saved_content_is_formatted_source_witness :
    save_code_content "program demo.aleo \x7b x \x7d" =
      "program demo.aleo \x7b x \x7d" :=
  (saved_content_is_formatted_source envPass 1
    "program demo.aleo \x7b x \x7d").2 (by decide)
